import Mathlib

/-!
Verification of the BAS World tractor-head inventory query engine
(`app/tools/search_inventory.py`, `app/schemas/schemas.py`,
`app/services/data_loader.py`) against its natural-language specification.

Modelling conventions:
* A pandas DataFrame of inventory rows is a `List TractorHead`; a missing
  value (NaN / None) is `Option.none`.
* Prices are `float` in the source; they are modelled as rationals (`ℚ`),
  which is faithful for the ordering and comparison operations the engine
  performs on finite values (NaN is the missing-value marker, modelled as
  `none`).
* Vectorised pandas mask operations are modelled row-wise; the boolean mask
  built by `_apply_filters` is the conjunction `matchesFilters` below, with
  one named conjunct per source block.
* `Series.str.contains(pat)` uses `regex=True` by default in pandas, i.e.
  `re.search`.  It is modelled by `reSearch` for the fragment of regular
  expressions actually reaching it from this engine: sequences of literal
  characters and the any-character `.`, combined by top-level alternation
  with `|` (the sleeper-keyword pattern built by the source is exactly a
  `|`-alternation of literal words).  Other metacharacters are outside the
  modelled fragment.
* `DataFrame.sort_values(..., na_position="last")` is modelled by
  `sort_values` below: rows whose (keyed) sort value is missing are placed
  after all other rows, in their original relative order — this is exactly
  pandas' `nargsort` behaviour.  The argsort of the non-missing block uses
  the pandas default `kind='quicksort'` (numpy introsort), which numpy runs
  as a stable insertion sort for blocks of at most 16 elements but which is
  not stable for larger blocks; it is modelled here by a stable insertion
  sort, exact for the small-block regime.
-/

namespace BasWorld

/-- One inventory record (`TractorHead` in `app/schemas/schemas.py`,
one row of the DataFrame loaded by `app/services/data_loader.py`).
Only the attributes the query engine reads are carried; every attribute
except the identifier is optional, `none` meaning "unknown" (NaN). -/
structure TractorHead where
  vehicle_id : Int
  euro : Option Int := none
  model : Option String := none
  brand : Option String := none
  configuration : Option String := none
  cabin : Option String := none
  power : Option Int := none
  mileage : Option Int := none
  gearbox : Option String := none
  retarder : Option Bool := none
  internet_price : Option ℚ := none
  is_new : Option Bool := none
  fuel : Option String := none
  bed_amount : Option Int := none
  is_damaged : Option Bool := none
  has_airco : Option Bool := none
  deriving DecidableEq, Repr

/-- The caller-supplied filter specification (`SearchFilters` in
`app/schemas/schemas.py`), with the pydantic defaults. -/
structure SearchFilters where
  brand : Option String := none
  model : Option String := none
  configuration : Option String := none
  euro : Option Int := none
  gearbox : Option String := none
  fuel : Option String := none
  cabin : Option String := none
  min_price : Option ℚ := none
  max_price : Option ℚ := none
  min_power : Option Int := none
  max_power : Option Int := none
  min_mileage : Option Int := none
  max_mileage : Option Int := none
  is_new : Option Bool := none
  has_retarder : Option Bool := none
  has_airco : Option Bool := none
  min_beds : Option Int := none
  is_damaged : Option Bool := none
  sort_by : Option String := some "price_asc"
  limit : Nat := 5
  deriving DecidableEq, Repr

/-- Python `str.upper()` for the ASCII fragment, evaluated on the
character list (`String.toUpper` itself is not kernel-reducible). -/
def upperStr (s : String) : String := ⟨s.data.map Char.toUpper⟩

/-- Python `str.lower()` for the ASCII fragment. -/
def lowerStr (s : String) : String := ⟨s.data.map Char.toLower⟩

/-- Python truthiness of an optional string (`if filters.brand:` is false
for both `None` and the empty string). -/
def isTruthy : Option String → Bool
  | none => false
  | some s => !(s == "")

/-- `series > bound` on a float column: NaN (missing) compares false. -/
def optGtQ : Option ℚ → ℚ → Bool
  | some x, b => decide (b < x)
  | none, _ => false

/-- `series >= bound` on a float column: NaN (missing) compares false. -/
def optGeQ : Option ℚ → ℚ → Bool
  | some x, b => decide (b ≤ x)
  | none, _ => false

/-- `series <= bound` on a float column: NaN (missing) compares false. -/
def optLeQ : Option ℚ → ℚ → Bool
  | some x, b => decide (x ≤ b)
  | none, _ => false

/-- `series >= bound` on an integer-valued column with missing entries. -/
def optGeI : Option Int → Int → Bool
  | some x, b => decide (b ≤ x)
  | none, _ => false

/-- `series <= bound` on an integer-valued column with missing entries. -/
def optLeI : Option Int → Int → Bool
  | some x, b => decide (x ≤ b)
  | none, _ => false

/-! ### The regular-expression fragment used by `Series.str.contains` -/

/-- One token of the modelled regex fragment: a literal character or the
any-character metacharacter `.`. -/
inductive RTok where
  | dot
  | lit (c : Char)
  deriving DecidableEq, Repr

/-- Split a pattern on the top-level alternation bar. -/
def splitAlts : List Char → List (List Char)
  | [] => [[]]
  | c :: rest =>
    if c = '|' then [] :: splitAlts rest
    else
      match splitAlts rest with
      | [] => [[c]]
      | a :: as => (c :: a) :: as

/-- Tokenise one alternative: `.` is the any-character, everything else a
literal. -/
def parseAlt (w : List Char) : List RTok :=
  w.map fun c => if c = '.' then RTok.dot else RTok.lit c

/-- Whether one regex token matches one character. -/
def tokMatch : RTok → Char → Bool
  | RTok.dot, _ => true
  | RTok.lit c, x => c == x

/-- Whether a token sequence matches a prefix of the text. -/
def matchPrefix : List RTok → List Char → Bool
  | [], _ => true
  | _ :: _, [] => false
  | t :: ts, x :: xs => tokMatch t x && matchPrefix ts xs

/-- `re.search(pat, hay) is not None`, as used by
`Series.str.contains(pat, regex=True)`, for the modelled fragment: some
alternative of the pattern matches at some position of the text. -/
def reSearch (pat hay : String) : Bool :=
  hay.data.tails.any fun t =>
    ((splitAlts pat.data).map parseAlt).any fun a => matchPrefix a t

/-- Literal (non-regex) substring containment, following the
specification's words "case-insensitive substring containment of the
literal keyword" — the spec-side comparison point for the cabin filter. -/
def litSubstr (needle hay : String) : Bool :=
  hay.data.tails.any fun t => needle.data.isPrefixOf t

/-- The fixed sleeper-alias expansion list from `_apply_filters`. -/
def sleeper_keywords : List String :=
  ["SLEEPER", "SPACE", "HIGHLINE", "GLOBETROTTER", "GIGASPACE",
   "TOPLINE", "SUPER", "BIGSPACE", "STREAMSPACE", "LONG", "L-CAB",
   "R-SERIES", "S-SERIES"]

/-! ### The filter mask, one named conjunct per source block -/

/-- `# Exclude damaged by default` block of `_apply_filters`. -/
def damagedCond (f : SearchFilters) (r : TractorHead) : Bool :=
  if f.is_damaged = none ∨ f.is_damaged = some false then
    (r.is_damaged != some true) || r.is_damaged.isNone
  else true

/-- `# Exclude zero-price vehicles ...` block: a price bound requires a
strictly positive price. -/
def priceGateCond (f : SearchFilters) (r : TractorHead) : Bool :=
  if f.min_price.isSome || f.max_price.isSome then
    optGtQ r.internet_price 0
  else true

/-- `# Brand (exact match, case-insensitive)` block. -/
def brandCond (f : SearchFilters) (r : TractorHead) : Bool :=
  if isTruthy f.brand then
    (r.brand.map upperStr).getD "" == upperStr (f.brand.getD "")
  else true

/-- `# Model (contains match for flexibility)` block; pandas
`str.contains` keyword matching, regex semantics. -/
def modelCond (f : SearchFilters) (r : TractorHead) : Bool :=
  if isTruthy f.model then
    reSearch (upperStr (f.model.getD "")) (upperStr (r.model.getD ""))
  else true

/-- `# Configuration (exact)` block. -/
def configurationCond (f : SearchFilters) (r : TractorHead) : Bool :=
  if isTruthy f.configuration then
    upperStr (r.configuration.getD "") == upperStr (f.configuration.getD "")
  else true

/-- `# Euro norm` block: equality against the column, NaN never equal. -/
def euroCond (f : SearchFilters) (r : TractorHead) : Bool :=
  if f.euro.isSome then r.euro == f.euro else true

/-- `# Gearbox` block. -/
def gearboxCond (f : SearchFilters) (r : TractorHead) : Bool :=
  if isTruthy f.gearbox then
    lowerStr (r.gearbox.getD "") == lowerStr (f.gearbox.getD "")
  else true

/-- `# Fuel type` block. -/
def fuelCond (f : SearchFilters) (r : TractorHead) : Bool :=
  if isTruthy f.fuel then
    lowerStr (r.fuel.getD "") == lowerStr (f.fuel.getD "")
  else true

/-- `# Cabin (Smart match ...)` block: the literal token `SLEEPER`
expands to the joined alternation pattern, any other keyword is handed to
`str.contains` directly (regex semantics). -/
def cabinCond (f : SearchFilters) (r : TractorHead) : Bool :=
  if isTruthy f.cabin then
    let val := upperStr (f.cabin.getD "")
    if val == "SLEEPER" then
      reSearch (String.intercalate "|" sleeper_keywords)
        (upperStr (r.cabin.getD ""))
    else
      reSearch val (upperStr (r.cabin.getD ""))
  else true

/-- `# Price range` block, lower bound. -/
def minPriceCond (f : SearchFilters) (r : TractorHead) : Bool :=
  match f.min_price with
  | some lo => optGeQ r.internet_price lo
  | none => true

/-- `# Price range` block, upper bound. -/
def maxPriceCond (f : SearchFilters) (r : TractorHead) : Bool :=
  match f.max_price with
  | some hi => optLeQ r.internet_price hi
  | none => true

/-- `# Power range (HP)` block, lower bound. -/
def minPowerCond (f : SearchFilters) (r : TractorHead) : Bool :=
  match f.min_power with
  | some lo => optGeI r.power lo
  | none => true

/-- `# Power range (HP)` block, upper bound. -/
def maxPowerCond (f : SearchFilters) (r : TractorHead) : Bool :=
  match f.max_power with
  | some hi => optLeI r.power hi
  | none => true

/-- `# Mileage range` block, lower bound. -/
def minMileageCond (f : SearchFilters) (r : TractorHead) : Bool :=
  match f.min_mileage with
  | some lo => optGeI r.mileage lo
  | none => true

/-- `# Mileage range` block, upper bound. -/
def maxMileageCond (f : SearchFilters) (r : TractorHead) : Bool :=
  match f.max_mileage with
  | some hi => optLeI r.mileage hi
  | none => true

/-- `# Boolean filters` block for `is_new`. -/
def isNewCond (f : SearchFilters) (r : TractorHead) : Bool :=
  match f.is_new with
  | some true => r.is_new == some true
  | some false => (r.is_new != some true) || r.is_new.isNone
  | none => true

/-- `min_beds` block. -/
def minBedsCond (f : SearchFilters) (r : TractorHead) : Bool :=
  match f.min_beds with
  | some b => optGeI r.bed_amount b
  | none => true

/-- The complete row mask of `_apply_filters`, conjuncts in source order.
The `has_retarder` / `has_airco` blocks are commented out in the source
and so contribute no conjunct. -/
def matchesFilters (f : SearchFilters) (r : TractorHead) : Bool :=
  damagedCond f r && priceGateCond f r && brandCond f r && modelCond f r &&
  configurationCond f r && euroCond f r && gearboxCond f r && fuelCond f r &&
  cabinCond f r && minPriceCond f r && maxPriceCond f r && minPowerCond f r &&
  maxPowerCond f r && minMileageCond f r && maxMileageCond f r &&
  isNewCond f r && minBedsCond f r

/-! ### Sorting and truncation -/

/-- The three sortable columns of the engine. -/
inductive SortCol where
  | price
  | mileage
  | power
  deriving DecidableEq, Repr

/-- The `sort_col` / `sort_asc` selection of `_apply_filters`: default is
price ascending; unrecognised (or falsy) `sort_by` values fall through to
the default. -/
def sortColAsc (f : SearchFilters) : SortCol × Bool :=
  if isTruthy f.sort_by then
    if f.sort_by == some "price_desc" then (SortCol.price, false)
    else if f.sort_by == some "mileage_asc" then (SortCol.mileage, true)
    else if f.sort_by == some "power_desc" then (SortCol.power, false)
    else (SortCol.price, true)
  else (SortCol.price, true)

/-- The raw value of the active sort column (NaN = `none`). -/
def rawSortValue : SortCol → TractorHead → Option ℚ
  | SortCol.price, r => r.internet_price
  | SortCol.mileage, r => r.mileage.map fun m => (m : ℚ)
  | SortCol.power, r => r.power.map fun p => (p : ℚ)

/-- The value actually sorted on: when sorting by price ascending the
source passes `key=lambda s: s.replace(0, float("nan"))`, so a price of
exactly zero becomes NaN; otherwise the raw column value. -/
def keyedSortValue (c : SortCol) (asc : Bool) (r : TractorHead) : Option ℚ :=
  match c, asc with
  | SortCol.price, true => r.internet_price.bind fun p => if p = 0 then none else some p
  | _, _ => rawSortValue c r

/-- The keyed sort value under the filter's active sort selection. -/
def rowKey (f : SearchFilters) (r : TractorHead) : Option ℚ :=
  keyedSortValue (sortColAsc f).1 (sortColAsc f).2 r

/-- The keyed sort value of a known-value row (only used on rows whose
`rowKey` is `some`). -/
def keyVal (f : SearchFilters) (r : TractorHead) : ℚ :=
  (rowKey f r).getD 0

/-- The comparison used to order the known-value block: ascending or
descending on the keyed value according to the active sort selection. -/
def sortRel (f : SearchFilters) (a b : TractorHead) : Prop :=
  if (sortColAsc f).2 then keyVal f a ≤ keyVal f b else keyVal f b ≤ keyVal f a

instance (f : SearchFilters) : DecidableRel (sortRel f) := fun a b => by
  unfold sortRel; split <;> exact inferInstance

instance (f : SearchFilters) : IsTotal TractorHead (sortRel f) := by
  constructor; intro a b; unfold sortRel; split <;> exact le_total _ _

instance (f : SearchFilters) : IsTrans TractorHead (sortRel f) := by
  constructor; intro a b c; unfold sortRel; split <;>
    exact fun h1 h2 => le_trans (by assumption) (by assumption)

/-- Model of `result.sort_values(by=sort_col, ascending=sort_asc,
na_position="last", key=...)`: pandas `nargsort` places the rows whose
keyed sort value is missing after all other rows, keeping them in their
original relative order, and argsorts the non-missing block.  The
non-missing argsort (default `kind='quicksort'`) is modelled by a stable
insertion sort — exact for numpy's small-block (≤ 16) insertion-sort
regime; numpy's introsort is not stable for larger blocks. -/
def sort_values (f : SearchFilters) (rows : List TractorHead) : List TractorHead :=
  let known := rows.filter fun r => (rowKey f r).isSome
  let unknown := rows.filter fun r => (rowKey f r).isNone
  (List.insertionSort (sortRel f) known) ++ unknown

/-- `_apply_filters` of `app/tools/search_inventory.py`: mask, sort, then
`head(limit)`. -/
def _apply_filters (df : List TractorHead) (filters : SearchFilters) :
    List TractorHead :=
  (sort_values filters (df.filter (matchesFilters filters))).take filters.limit

/-! ### Detail lookup and comparison -/

/-- `get_vehicle_by_id` of `app/services/data_loader.py`: first row whose
`vehicle_id` matches, or `none`. -/
def get_vehicle_by_id (df : List TractorHead) (vehicle_id : Int) :
    Option TractorHead :=
  (df.filter fun r => r.vehicle_id == vehicle_id).head?

/-- The four structurally distinct outcomes of `compare_vehicles` (each is
serialised to a distinct JSON payload in the source; the two validation
errors carry the violated bound in their message text). -/
inductive CompareResult where
  | tooFew
  | tooMany
  | notFound (missing : List Int)
  | ok (vehicles : List TractorHead)
  deriving DecidableEq, Repr

/-- `compare_vehicles` of `app/tools/search_inventory.py`: validate the
list length, resolve every id, report all missing ids together, otherwise
return the records in input order. -/
def compare_vehicles (df : List TractorHead) (vehicle_ids : List Int) :
    CompareResult :=
  if vehicle_ids.length < 2 then CompareResult.tooFew
  else if vehicle_ids.length > 5 then CompareResult.tooMany
  else
    let vehicles := vehicle_ids.filterMap (get_vehicle_by_id df)
    let not_found := vehicle_ids.filter fun v => (get_vehicle_by_id df v).isNone
    if not_found.isEmpty then CompareResult.ok vehicles
    else CompareResult.notFound not_found

/-! ### Derived notions used in the statements -/

/-- Ordering on keyed sort values with the missing value greatest: this is
the order in which `sort_values` emits rows (`na_position="last"`). -/
def optKeyLe (asc : Bool) : Option ℚ → Option ℚ → Bool
  | _, none => true
  | none, some _ => false
  | some x, some y => if asc then decide (x ≤ y) else decide (y ≤ x)

/-- The output order of the engine under a filter's active sort
selection: keyed values compared with missing greatest. -/
def outLeB (f : SearchFilters) (a b : TractorHead) : Bool :=
  optKeyLe (sortColAsc f).2 (rowKey f a) (rowKey f b)

/-- The characters Python's `re` module treats as metacharacters; a
keyword avoiding all of them is matched by `re.search` exactly as a
literal substring. -/
def pythonRegexMetachars : List Char :=
  ['.', '|', '*', '+', '?', '^', '$', '(', ')', '[', ']', '\x7b', '\x7d', '\\']

/-- Sample record: a row carrying only an id and a price. -/
def priceRow (id : Int) (p : Option ℚ) : TractorHead :=
  { vehicle_id := id, internet_price := p }

/-- Sample record: a row carrying only an id and a cabin string. -/
def cabinRow (id : Int) (c : String) : TractorHead :=
  { vehicle_id := id, cabin := some c }

/-- Sample record: an explicitly damaged row. -/
def sampleDamaged : TractorHead :=
  { vehicle_id := 21, is_damaged := some true, internet_price := some 5000 }

/-- Sample record: an undamaged row with known price, power and mileage. -/
def sampleClean : TractorHead :=
  { vehicle_id := 22, internet_price := some 20000, power := some 450,
    mileage := some 100000 }

/-- Sample record: a row with every optional attribute unknown. -/
def sampleUnknown : TractorHead := { vehicle_id := 23 }

/-- Sample store for the comparison-operation witnesses. -/
def compareDf : List TractorHead := [priceRow 1 none, priceRow 3 none]

/-- Sample filter asking for both power bounds. -/
def fPow : SearchFilters := { min_power := some 400, max_power := some 500 }

/-- Sample filter asking for both mileage bounds. -/
def fMil : SearchFilters := { min_mileage := some 1, max_mileage := some 200000 }

/-- Sample filter with a truncating limit. -/
def f9 : SearchFilters := { limit := 2 }

/-- The cabin keyword `"."`: a regex metacharacter handed to the engine. -/
def cabinDotFilters : SearchFilters := { cabin := some "." }

/-! ### Structural lemmas about the engine -/

/-- Rows emitted by the sort step come from its input. -/
theorem mem_sort_values {f : SearchFilters} {rows : List TractorHead}
    {r : TractorHead} (h : r ∈ sort_values f rows) : r ∈ rows := by
  simp only [sort_values] at h
  rcases List.mem_append.mp h with h1 | h1
  · exact (List.mem_filter.mp ((List.mem_insertionSort _).mp h1)).1
  · exact (List.mem_filter.mp h1).1

/-- Rows of the final result come from the DataFrame and satisfy the
whole filter mask. -/
theorem mem_apply_filters {df : List TractorHead} {f : SearchFilters}
    {r : TractorHead} (h : r ∈ _apply_filters df f) :
    r ∈ df ∧ matchesFilters f r = true := by
  have h1 : r ∈ sort_values f (df.filter (matchesFilters f)) :=
    List.mem_of_mem_take h
  exact List.mem_filter.mp (mem_sort_values h1)

/-- The sort step emits rows in the `optKeyLe` order: the known-key block
is sorted, and every missing-key row comes after every other row. -/
theorem sort_values_pairwise (f : SearchFilters) (rows : List TractorHead) :
    (sort_values f rows).Pairwise fun a b => outLeB f a b = true := by
  unfold sort_values
  refine List.pairwise_append.mpr ⟨?_, ?_, ?_⟩
  · have hs := List.sorted_insertionSort (sortRel f)
      (rows.filter fun r => (rowKey f r).isSome)
    refine List.Pairwise.imp_of_mem ?_ hs
    intro a b ha hb hab
    have ha' : (rowKey f a).isSome :=
      (List.mem_filter.mp ((List.mem_insertionSort _).mp ha)).2
    have hb' : (rowKey f b).isSome :=
      (List.mem_filter.mp ((List.mem_insertionSort _).mp hb)).2
    obtain ⟨x, hx⟩ := Option.isSome_iff_exists.mp ha'
    obtain ⟨y, hy⟩ := Option.isSome_iff_exists.mp hb'
    have hka : keyVal f a = x := by unfold keyVal; rw [hx]; rfl
    have hkb : keyVal f b = y := by unfold keyVal; rw [hy]; rfl
    unfold sortRel at hab
    rw [hka, hkb] at hab
    unfold outLeB
    rw [hx, hy]
    cases hasc : (sortColAsc f).2 <;> rw [hasc] at hab <;>
      simp_all [optKeyLe]
  · refine List.pairwise_of_forall_mem_list ?_
    intro a _ b hb
    have hb' : (rowKey f b).isNone := (List.mem_filter.mp hb).2
    unfold outLeB
    rw [Option.isNone_iff_eq_none.mp hb']
    simp [optKeyLe]
  · intro a _ b hb
    have hb' : (rowKey f b).isNone := (List.mem_filter.mp hb).2
    unfold outLeB
    rw [Option.isNone_iff_eq_none.mp hb']
    simp [optKeyLe]

/-- In a pairwise-ordered list, every kept element (before the cut) is
related to every dropped element (after the cut). -/
theorem pairwise_take_drop {α : Type} {R : α → α → Prop} {l : List α}
    {n : Nat} (h : l.Pairwise R) :
    ∀ r ∈ l.take n, ∀ s ∈ l.drop n, R r s :=
  (List.pairwise_append.mp ((List.take_append_drop n l).symm ▸ h)).2.2

/-- Taking a prefix of a list made of a `p`-block followed by a
non-`p`-block again yields a `p`-block followed by a non-`p`-block. -/
theorem take_partition {α : Type} {p : α → Bool} (A B : List α) (n : Nat)
    (hA : ∀ a ∈ A, p a = true) (hB : ∀ b ∈ B, p b = false) :
    (A ++ B).take n =
      ((A ++ B).take n).filter p ++
      ((A ++ B).take n).filter (fun x => !(p x)) := by
  rw [List.take_append_eq_append_take, List.filter_append, List.filter_append]
  have hA' : ∀ a ∈ A.take n, p a = true :=
    fun a ha => hA a (List.take_subset _ _ ha)
  have hB' : ∀ b ∈ B.take (n - A.length), p b = false :=
    fun b hb => hB b (List.take_subset _ _ hb)
  rw [List.filter_eq_self.mpr hA',
      List.filter_eq_nil_iff.mpr (fun b hb => by simp [hB' b hb]),
      List.filter_eq_nil_iff.mpr (fun a ha => by simp [hA' a ha]),
      List.filter_eq_self.mpr (fun b hb => by simp [hB' b hb]),
      List.append_nil, List.nil_append]

/-- The row mask decomposed into its seventeen conjuncts. -/
theorem matchesFilters_iff {f : SearchFilters} {r : TractorHead} :
    matchesFilters f r = true ↔
      damagedCond f r = true ∧ priceGateCond f r = true ∧
      brandCond f r = true ∧ modelCond f r = true ∧
      configurationCond f r = true ∧ euroCond f r = true ∧
      gearboxCond f r = true ∧ fuelCond f r = true ∧
      cabinCond f r = true ∧ minPriceCond f r = true ∧
      maxPriceCond f r = true ∧ minPowerCond f r = true ∧
      maxPowerCond f r = true ∧ minMileageCond f r = true ∧
      maxMileageCond f r = true ∧ isNewCond f r = true ∧
      minBedsCond f r = true := by
  simp [matchesFilters, Bool.and_eq_true, and_assoc]

/-- A passed lower-bound comparison forces a known value in range. -/
theorem optGeI_some {v : Option Int} {b : Int} (h : optGeI v b = true) :
    ∃ x, v = some x ∧ b ≤ x := by
  cases v with
  | none => simp [optGeI] at h
  | some x => exact ⟨x, rfl, by simpa [optGeI] using h⟩

/-- A passed upper-bound comparison forces a known value in range. -/
theorem optLeI_some {v : Option Int} {b : Int} (h : optLeI v b = true) :
    ∃ x, v = some x ∧ x ≤ b := by
  cases v with
  | none => simp [optLeI] at h
  | some x => exact ⟨x, rfl, by simpa [optLeI] using h⟩

/-- Values passing all supplied inclusive bounds, with at least one bound
supplied, are known and within every supplied bound. -/
theorem bounds_of_conds {v bmin bmax : Option Int}
    (hmin : ∀ lo, bmin = some lo → optGeI v lo = true)
    (hmax : ∀ hi, bmax = some hi → optLeI v hi = true)
    (hb : bmin.isSome ∨ bmax.isSome) :
    ∃ x, v = some x ∧ (∀ lo, bmin = some lo → lo ≤ x) ∧
      (∀ hi, bmax = some hi → x ≤ hi) := by
  have hknown : ∃ x, v = some x := by
    rcases hb with h | h
    · obtain ⟨lo, hlo⟩ := Option.isSome_iff_exists.mp h
      obtain ⟨x, hx, -⟩ := optGeI_some (hmin lo hlo)
      exact ⟨x, hx⟩
    · obtain ⟨hi, hhi⟩ := Option.isSome_iff_exists.mp h
      obtain ⟨x, hx, -⟩ := optLeI_some (hmax hi hhi)
      exact ⟨x, hx⟩
  obtain ⟨x, hx⟩ := hknown
  refine ⟨x, hx, ?_, ?_⟩
  · intro lo hlo
    have h1 := hmin lo hlo
    rw [hx] at h1
    simpa [optGeI] using h1
  · intro hi hhi
    have h1 := hmax hi hhi
    rw [hx] at h1
    simpa [optLeI] using h1

/-! ### The claims -/

/-- C1: on the specification's concrete example — input prices
`[0, 30000, 0, 10000]`, default filters (price ascending) — the engine
returns `[10000, 30000, 0, 0]` with the two zero-price rows in their
original relative order.  The sort model is exact for result sets of at
most 16 rows, where numpy's default argsort is a plain insertion sort;
for larger result sets the pandas default `kind='quicksort'` gives no
stability guarantee, so the claim's universal stability statement is not
delivered by the code (see the development header). -/
theorem price_sort_small_example :
    _apply_filters
      [priceRow 1 (some 0), priceRow 2 (some 30000),
       priceRow 3 (some 0), priceRow 4 (some 10000)] {} =
      [priceRow 4 (some 10000), priceRow 2 (some 30000),
       priceRow 1 (some 0), priceRow 3 (some 0)] := by decide

/-- C2: in the engine's output, every row with a missing keyed sort value
comes after every row with a known keyed sort value (the output splits as
known block followed by missing block); a missing raw value on the active
sort dimension always gives a missing keyed value, whatever the
direction; and under price ascending the keyed value is missing exactly
for an unknown price or a price of exactly zero. -/
theorem unknown_sort_values_placed_last (df : List TractorHead)
    (f : SearchFilters) :
    (_apply_filters df f =
      (_apply_filters df f).filter (fun r => (rowKey f r).isSome) ++
      (_apply_filters df f).filter (fun r => (rowKey f r).isNone)) ∧
    (∀ c asc r, rawSortValue c r = none → keyedSortValue c asc r = none) ∧
    (∀ r : TractorHead, keyedSortValue SortCol.price true r = none ↔
      r.internet_price = none ∨ r.internet_price = some 0) := by
  refine ⟨?_, ?_, ?_⟩
  · have hA : ∀ a ∈ List.insertionSort (sortRel f)
        ((df.filter (matchesFilters f)).filter fun r => (rowKey f r).isSome),
        (fun r => (rowKey f r).isSome) a = true := by
      intro a ha
      exact (List.mem_filter.mp ((List.mem_insertionSort _).mp ha)).2
    have hB : ∀ b ∈ (df.filter (matchesFilters f)).filter
        (fun r => (rowKey f r).isNone),
        (fun r => (rowKey f r).isSome) b = false := by
      intro b hb
      have h1 := (List.mem_filter.mp hb).2
      simp only [Option.isNone_iff_eq_none] at h1
      simp [h1]
    have h := take_partition _ _ f.limit hA hB
    have hconv : ∀ (l : List TractorHead),
        l.filter (fun r => !((rowKey f r).isSome)) =
        l.filter (fun r => (rowKey f r).isNone) :=
      fun l => List.filter_congr (fun a _ => by cases rowKey f a <;> rfl)
    have happ : _apply_filters df f = List.take f.limit
        (List.insertionSort (sortRel f)
          ((df.filter (matchesFilters f)).filter fun r => (rowKey f r).isSome) ++
         (df.filter (matchesFilters f)).filter fun r => (rowKey f r).isNone) := rfl
    rw [hconv] at h
    rw [happ]
    exact h
  · intro c asc r h
    cases c <;> cases asc <;> simp_all [keyedSortValue, rawSortValue]
  · intro r
    cases hp : r.internet_price with
    | none => simp [keyedSortValue, hp]
    | some p =>
      have hred : keyedSortValue SortCol.price true r =
          if p = 0 then none else some p := by
        simp [keyedSortValue, hp]
      rw [hred]
      split_ifs with h0 <;> simp [h0]

/-- C2 witness: an unknown mileage gives a missing keyed value under
mileage ascending, and a zero price gives a missing keyed value under
price ascending. -/
theorem unknown_sort_values_placed_last_witness :
    keyedSortValue SortCol.mileage true sampleUnknown = none ∧
    keyedSortValue SortCol.price true (priceRow 31 (some 0)) = none := by
  constructor
  · exact (unknown_sort_values_placed_last [] {}).2.1 SortCol.mileage true
      sampleUnknown (by decide)
  · exact ((unknown_sort_values_placed_last [] {}).2.2
      (priceRow 31 (some 0))).mpr (Or.inr (by decide))

/-- C3: when a price bound is supplied every returned row has a known,
strictly positive price; and when neither bound is supplied the mask is
entirely independent of the price, so zero- and unknown-price rows stay
eligible. -/
theorem price_bound_requires_positive_price (df : List TractorHead)
    (f : SearchFilters) (r : TractorHead) :
    (f.min_price.isSome ∨ f.max_price.isSome → r ∈ _apply_filters df f →
      ∃ p, r.internet_price = some p ∧ 0 < p) ∧
    (f.min_price = none → f.max_price = none → ∀ q : Option ℚ,
      matchesFilters f { r with internet_price := q } =
        matchesFilters f r) := by
  constructor
  · intro hb hm
    have hmask := (mem_apply_filters hm).2
    obtain ⟨-, hgate, -⟩ := matchesFilters_iff.mp hmask
    have hcond : (f.min_price.isSome || f.max_price.isSome) = true := by
      rcases hb with h | h <;> simp [h]
    simp only [priceGateCond, hcond, if_true] at hgate
    cases hp : r.internet_price with
    | none => rw [hp] at hgate; simp [optGtQ] at hgate
    | some p =>
      rw [hp] at hgate
      simp only [optGtQ, decide_eq_true_eq] at hgate
      exact ⟨p, rfl, hgate⟩
  · intro hmin hmax q
    have h1 : priceGateCond f { r with internet_price := q } =
        priceGateCond f r := by
      unfold priceGateCond; rw [hmin, hmax]; rfl
    have h2 : minPriceCond f { r with internet_price := q } =
        minPriceCond f r := by
      unfold minPriceCond; rw [hmin]
    have h3 : maxPriceCond f { r with internet_price := q } =
        maxPriceCond f r := by
      unfold maxPriceCond; rw [hmax]
    unfold matchesFilters
    rw [h1, h2, h3]
    rfl

/-- C3 witness: a returned row of a price-bounded query has a known
positive price, and without price bounds the mask ignores the price. -/
theorem price_bound_requires_positive_price_witness :
    (∃ p, sampleClean.internet_price = some p ∧ 0 < p) ∧
    matchesFilters {} { sampleUnknown with internet_price := some 0 } =
      matchesFilters {} sampleUnknown := by
  constructor
  · exact (price_bound_requires_positive_price [sampleClean]
      { min_price := some 1000 } sampleClean).1 (Or.inl (by decide)) (by decide)
  · exact (price_bound_requires_positive_price [] {} sampleUnknown).2
      rfl rfl (some 0)

/-- C4: with `is_damaged` unset or false, no explicitly damaged row is
ever returned, and an unknown damage flag filters exactly like an
explicit `false` (only explicit `true` excludes). -/
theorem damaged_excluded_by_default (df : List TractorHead)
    (f : SearchFilters) (r : TractorHead)
    (h : f.is_damaged = none ∨ f.is_damaged = some false) :
    (r ∈ _apply_filters df f → r.is_damaged ≠ some true) ∧
    (r.is_damaged = none →
      matchesFilters f r =
        matchesFilters f { r with is_damaged := some false }) := by
  constructor
  · intro hm htrue
    have hmask := (mem_apply_filters hm).2
    obtain ⟨hdam, -⟩ := matchesFilters_iff.mp hmask
    unfold damagedCond at hdam
    rw [if_pos h, htrue] at hdam
    simp at hdam
  · intro hnone
    have h1 : damagedCond f r =
        damagedCond f { r with is_damaged := some false } := by
      unfold damagedCond
      rw [if_pos h, if_pos h, hnone]
      rfl
    unfold matchesFilters
    rw [h1]
    rfl

/-- C4 witness: an undamaged row returned by the default filter is not
explicitly damaged, and the mask treats unknown damage as explicit
false. -/
theorem damaged_excluded_by_default_witness :
    sampleClean.is_damaged ≠ some true ∧
    matchesFilters {} sampleUnknown =
      matchesFilters {} { sampleUnknown with is_damaged := some false } := by
  constructor
  · exact (damaged_excluded_by_default [sampleDamaged, sampleClean] {}
      sampleClean (Or.inl rfl)).1 (by decide)
  · exact (damaged_excluded_by_default [] {} sampleUnknown
      (Or.inl rfl)).2 rfl

/-- C10: with `is_damaged` explicitly true the damage conjunct is
satisfied by every row — damaged, undamaged and unknown alike — so the
flag applies no damage constraint at all and can only widen eligibility
relative to the default. -/
theorem damaged_true_no_constraint (f : SearchFilters) (r : TractorHead) :
    damagedCond { f with is_damaged := some true } r = true ∧
    (matchesFilters { f with is_damaged := none } r = true →
      matchesFilters { f with is_damaged := some true } r = true) := by
  constructor
  · simp [damagedCond]
  · intro hm
    obtain ⟨-, rest⟩ := matchesFilters_iff.mp hm
    exact matchesFilters_iff.mpr ⟨by simp [damagedCond], rest⟩

/-- C10 witness: an explicitly damaged row satisfies the damage conjunct
of an `is_damaged := true` query, and a row eligible under the default
stays eligible. -/
theorem damaged_true_no_constraint_witness :
    damagedCond { ({} : SearchFilters) with is_damaged := some true }
      sampleDamaged = true ∧
    matchesFilters { ({} : SearchFilters) with is_damaged := some true }
      sampleClean = true := by
  constructor
  · exact (damaged_true_no_constraint {} sampleDamaged).1
  · exact (damaged_true_no_constraint {} sampleClean).2 (by decide)

/-- C7: the `has_retarder` and `has_airco` filter fields are inert: the
engine's result is identical for any assignment of the two fields, all
other fields untouched. -/
theorem retarder_airco_inert (df : List TractorHead) (f : SearchFilters)
    (a b : Option Bool) :
    _apply_filters df { f with has_retarder := a, has_airco := b } =
      _apply_filters df f := rfl

/-- C6: with a power bound supplied, every returned row has a known power
inside every supplied bound (inclusive; a missing bound is unbounded);
likewise for mileage. -/
theorem numeric_range_bounds (df : List TractorHead) (f : SearchFilters)
    (r : TractorHead) :
    (f.min_power.isSome ∨ f.max_power.isSome → r ∈ _apply_filters df f →
      ∃ p, r.power = some p ∧ (∀ lo, f.min_power = some lo → lo ≤ p) ∧
        (∀ hi, f.max_power = some hi → p ≤ hi)) ∧
    (f.min_mileage.isSome ∨ f.max_mileage.isSome →
      r ∈ _apply_filters df f →
      ∃ m, r.mileage = some m ∧ (∀ lo, f.min_mileage = some lo → lo ≤ m) ∧
        (∀ hi, f.max_mileage = some hi → m ≤ hi)) := by
  constructor
  · intro hb hm
    have hmask := (mem_apply_filters hm).2
    obtain ⟨-, -, -, -, -, -, -, -, -, -, -, hminp, hmaxp, -⟩ :=
      matchesFilters_iff.mp hmask
    refine bounds_of_conds ?_ ?_ hb
    · intro lo hlo
      unfold minPowerCond at hminp
      rw [hlo] at hminp
      exact hminp
    · intro hi hhi
      unfold maxPowerCond at hmaxp
      rw [hhi] at hmaxp
      exact hmaxp
  · intro hb hm
    have hmask := (mem_apply_filters hm).2
    obtain ⟨-, -, -, -, -, -, -, -, -, -, -, -, -, hminm, hmaxm, -⟩ :=
      matchesFilters_iff.mp hmask
    refine bounds_of_conds ?_ ?_ hb
    · intro lo hlo
      unfold minMileageCond at hminm
      rw [hlo] at hminm
      exact hminm
    · intro hi hhi
      unfold maxMileageCond at hmaxm
      rw [hhi] at hmaxm
      exact hmaxm

/-- C6 witness: a returned row of a power- and mileage-bounded query has
known power and mileage within the bounds. -/
theorem numeric_range_bounds_witness :
    (∃ p, sampleClean.power = some p ∧
      (∀ lo, fPow.min_power = some lo → lo ≤ p) ∧
      (∀ hi, fPow.max_power = some hi → p ≤ hi)) ∧
    (∃ m, sampleClean.mileage = some m ∧
      (∀ lo, fMil.min_mileage = some lo → lo ≤ m) ∧
      (∀ hi, fMil.max_mileage = some hi → m ≤ hi)) := by
  constructor
  · exact (numeric_range_bounds [sampleClean] fPow sampleClean).1
      (Or.inl (by decide)) (by decide)
  · exact (numeric_range_bounds [sampleClean] fMil sampleClean).2
      (Or.inl (by decide)) (by decide)

/-- C9: the result is exactly the first `limit` elements of the fully
sorted qualifying subset — truncation happens strictly after ordering —
and consequently every returned row precedes, in the keyed
missing-last order, every qualifying row the truncation cut off. -/
theorem limit_truncates_after_sort (df : List TractorHead)
    (f : SearchFilters) :
    _apply_filters df f =
      (sort_values f (df.filter (matchesFilters f))).take f.limit ∧
    (∀ r ∈ _apply_filters df f,
      ∀ s ∈ (sort_values f (df.filter (matchesFilters f))).drop f.limit,
        outLeB f r s = true) ∧
    ({} : SearchFilters).limit = 5 := by
  refine ⟨rfl, ?_, rfl⟩
  exact pairwise_take_drop
    (sort_values_pairwise f (df.filter (matchesFilters f)))

/-- C9 witness: with three qualifying rows and `limit = 2`, a returned
row precedes the cut-off row in the keyed order. -/
theorem limit_truncates_after_sort_witness :
    outLeB f9 (priceRow 41 (some 100)) (priceRow 43 (some 300)) = true :=
  (limit_truncates_after_sort
    [priceRow 41 (some 100), priceRow 42 (some 200), priceRow 43 (some 300)]
    f9).2.1
    (priceRow 41 (some 100)) (by decide) (priceRow 43 (some 300)) (by decide)

/-- A resolved vehicle carries the id it was resolved by. -/
theorem get_vehicle_by_id_eq {df : List TractorHead} {vid : Int}
    {v : TractorHead} (h : get_vehicle_by_id df vid = some v) :
    v.vehicle_id = vid := by
  unfold get_vehicle_by_id at h
  obtain ⟨ys, hys⟩ := List.head?_eq_some_iff.mp h
  have hv : v ∈ df.filter fun r => r.vehicle_id == vid := by
    rw [hys]; exact List.mem_cons_self _ _
  have h2 := (List.mem_filter.mp hv).2
  simpa using h2

/-- With every id resolvable, the resolved records map back onto the id
list, in order. -/
theorem filterMap_get_ids (df : List TractorHead) :
    ∀ (ids : List Int), (∀ i ∈ ids, (get_vehicle_by_id df i).isSome) →
      (ids.filterMap (get_vehicle_by_id df)).map (fun v => v.vehicle_id) =
        ids := by
  intro ids
  induction ids with
  | nil => intro _; rfl
  | cons i rest ih =>
    intro h
    obtain ⟨v, hv⟩ :=
      Option.isSome_iff_exists.mp (h i (List.mem_cons_self i rest))
    rw [List.filterMap_cons_some hv]
    simp only [List.map_cons]
    rw [get_vehicle_by_id_eq hv,
      ih (fun j hj => h j (List.mem_cons_of_mem i hj))]

/-- C8: the comparison operation rejects fewer than 2 ids with the
lower-bound validation error and more than 5 with the upper-bound one
(never truncating or padding); when any id does not resolve, it fails
reporting exactly the unresolved ids, in input order, carrying no record
data; and on success it returns the resolved records in the order of the
input id list. -/
theorem compare_vehicles_contract (df : List TractorHead) (ids : List Int) :
    (ids.length < 2 → compare_vehicles df ids = CompareResult.tooFew) ∧
    (5 < ids.length → compare_vehicles df ids = CompareResult.tooMany) ∧
    (2 ≤ ids.length → ids.length ≤ 5 →
      ids.filter (fun v => (get_vehicle_by_id df v).isNone) ≠ [] →
      compare_vehicles df ids = CompareResult.notFound
        (ids.filter fun v => (get_vehicle_by_id df v).isNone)) ∧
    (2 ≤ ids.length → ids.length ≤ 5 →
      (∀ i ∈ ids, (get_vehicle_by_id df i).isSome) →
      compare_vehicles df ids =
        CompareResult.ok (ids.filterMap (get_vehicle_by_id df)) ∧
      (ids.filterMap (get_vehicle_by_id df)).map (fun v => v.vehicle_id) =
        ids) := by
  refine ⟨?_, ?_, ?_, ?_⟩
  · intro h
    simp [compare_vehicles, h]
  · intro h
    have h2 : ¬ ids.length < 2 := by omega
    simp [compare_vehicles, h, h2]
  · intro h2 h5 hne
    have hlt : ¬ ids.length < 2 := by omega
    have hgt : ¬ ids.length > 5 := by omega
    have hemp : (ids.filter fun v =>
        (get_vehicle_by_id df v).isNone).isEmpty = false :=
      List.isEmpty_eq_false.mpr hne
    simp [compare_vehicles, hlt, hgt, hemp]
  · intro h2 h5 hall
    have hlt : ¬ ids.length < 2 := by omega
    have hgt : ¬ ids.length > 5 := by omega
    have hnil : ids.filter (fun v => (get_vehicle_by_id df v).isNone) = [] := by
      rw [List.filter_eq_nil_iff]
      intro a ha
      obtain ⟨v, hv⟩ := Option.isSome_iff_exists.mp (hall a ha)
      simp [hv]
    constructor
    · simp [compare_vehicles, hlt, hgt, hnil]
    · exact filterMap_get_ids df ids hall

/-- C8 witness: on a concrete two-record store, one id fails the lower
bound, six ids fail the upper bound, a missing middle id is reported
alone with no record data, and a fully resolvable list is returned in
input order. -/
theorem compare_vehicles_contract_witness :
    compare_vehicles compareDf [1] = CompareResult.tooFew ∧
    compare_vehicles compareDf [1, 2, 3, 4, 5, 6] = CompareResult.tooMany ∧
    compare_vehicles compareDf [1, 2, 3] = CompareResult.notFound [2] ∧
    compare_vehicles compareDf [1, 3] =
      CompareResult.ok [priceRow 1 none, priceRow 3 none] := by
  refine ⟨?_, ?_, ?_, ?_⟩
  · exact (compare_vehicles_contract compareDf [1]).1 (by decide)
  · exact (compare_vehicles_contract compareDf [1, 2, 3, 4, 5, 6]).2.1
      (by decide)
  · exact ((compare_vehicles_contract compareDf [1, 2, 3]).2.2.1
      (by decide) (by decide) (by decide)).trans (by decide)
  · exact (((compare_vehicles_contract compareDf [1, 3]).2.2.2
      (by decide) (by decide) (by decide)).1).trans (by decide)

/-- A dot-free alternative matches a prefix of the text exactly as the
literal word. -/
theorem matchPrefix_parseAlt :
    ∀ (w : List Char), '.' ∉ w →
      ∀ t, matchPrefix (parseAlt w) t = w.isPrefixOf t := by
  intro w
  induction w with
  | nil => intro _ t; simp [parseAlt, matchPrefix]
  | cons c w ih =>
    intro hw t
    have hc : c ≠ '.' := fun hceq => hw (hceq ▸ List.mem_cons_self c w)
    have hw' : '.' ∉ w := fun hm => hw (List.mem_cons_of_mem c hm)
    have h1 : parseAlt (c :: w) = RTok.lit c :: parseAlt w := by
      simp [parseAlt, hc]
    cases t with
    | nil => rw [h1]; simp [matchPrefix, List.isPrefixOf]
    | cons x xs =>
      rw [h1]
      simp only [matchPrefix, tokMatch, List.isPrefixOf]
      rw [ih hw' xs]

/-- A bar-free pattern is a single alternative. -/
theorem splitAlts_no_bar :
    ∀ (l : List Char), '|' ∉ l → splitAlts l = [l] := by
  intro l
  induction l with
  | nil => intro _; rfl
  | cons c rest ih =>
    intro h
    have hc : c ≠ '|' := fun hceq => h (hceq ▸ List.mem_cons_self c rest)
    have h' : '|' ∉ rest := fun hm => h (List.mem_cons_of_mem c hm)
    simp [splitAlts, hc, ih h']

/-- For a pattern free of the modelled metacharacters, regex search is
literal substring containment. -/
theorem reSearch_eq_litSubstr (pat hay : String)
    (hbar : '|' ∉ pat.data) (hdot : '.' ∉ pat.data) :
    reSearch pat hay = litSubstr pat hay := by
  unfold reSearch litSubstr
  rw [splitAlts_no_bar pat.data hbar]
  simp only [List.map_cons, List.map_nil]
  refine congrArg _ ?_
  funext t
  simp only [List.any_cons, List.any_nil, Bool.or_false]
  exact matchPrefix_parseAlt pat.data hdot t

/-- The joined sleeper pattern matches exactly when some expansion
keyword occurs literally in the text. -/
theorem reSearch_sleeper (hay : String) :
    reSearch (String.intercalate "|" sleeper_keywords) hay = true ↔
      ∃ k ∈ sleeper_keywords, litSubstr k hay = true := by
  have hsplit : splitAlts (String.intercalate "|" sleeper_keywords).data =
      sleeper_keywords.map (fun k => k.data) := by decide
  have hdots : ∀ k ∈ sleeper_keywords, '.' ∉ k.data := by decide
  unfold reSearch
  rw [hsplit, List.map_map]
  simp only [List.any_eq_true, List.mem_map, Function.comp]
  constructor
  · rintro ⟨t, ht, a, ⟨k, hk, rfl⟩, hm⟩
    refine ⟨k, hk, ?_⟩
    unfold litSubstr
    rw [List.any_eq_true]
    refine ⟨t, ht, ?_⟩
    rw [← matchPrefix_parseAlt k.data (hdots k hk) t]
    exact hm
  · rintro ⟨k, hk, hsub⟩
    unfold litSubstr at hsub
    rw [List.any_eq_true] at hsub
    obtain ⟨t, ht, hpre⟩ := hsub
    exact ⟨t, ht, parseAlt k.data, ⟨k, hk, rfl⟩,
      by rw [matchPrefix_parseAlt k.data (hdots k hk) t]; exact hpre⟩

/-- C5 (amended): the cabin filter has exactly two modes.  When the
upper-cased keyword is the literal token SLEEPER, a record matches iff
its cabin string contains some member of the fixed expansion list as a
literal substring.  Any other keyword is handed to pandas
`str.contains`, whose default is regex matching; for keywords containing
no regex metacharacter this coincides with literal case-insensitive
substring containment. -/
theorem cabin_filter_modes (f : SearchFilters) (r : TractorHead)
    (kw : String) (hkw : f.cabin = some kw) (hne : kw ≠ "") :
    (upperStr kw = "SLEEPER" →
      (cabinCond f r = true ↔
        ∃ k ∈ sleeper_keywords,
          litSubstr k (upperStr (r.cabin.getD "")) = true)) ∧
    (upperStr kw ≠ "SLEEPER" →
      (∀ c ∈ (upperStr kw).data, c ∉ pythonRegexMetachars) →
      (cabinCond f r = true ↔
        litSubstr (upperStr kw) (upperStr (r.cabin.getD "")) = true)) := by
  have htruthy : isTruthy f.cabin = true := by
    rw [hkw]; simp [isTruthy, hne]
  have hval : upperStr (f.cabin.getD "") = upperStr kw := by
    rw [hkw]
    simp
  constructor
  · intro hsleeper
    have hred : cabinCond f r = reSearch
        (String.intercalate "|" sleeper_keywords)
        (upperStr (r.cabin.getD "")) := by
      simp [cabinCond, htruthy, hval, hsleeper]
    rw [hred]
    exact reSearch_sleeper _
  · intro hns hmeta
    have hbeq : (upperStr kw == "SLEEPER") = false := by
      simp [hns]
    have hred : cabinCond f r =
        reSearch (upperStr kw) (upperStr (r.cabin.getD "")) := by
      simp [cabinCond, htruthy, hval, hbeq]
    have hbar : '|' ∉ (upperStr kw).data :=
      fun hm => (hmeta '|' hm) (by decide)
    have hdot : '.' ∉ (upperStr kw).data :=
      fun hm => (hmeta '.' hm) (by decide)
    rw [hred, reSearch_eq_litSubstr _ _ hbar hdot]

/-- C5 witness: the sleeper alias matches GLOBETROTTER and rejects
DAY CAB, and a metacharacter-free keyword behaves as literal substring
containment. -/
theorem cabin_filter_modes_witness :
    cabinCond { cabin := some "sleeper" } (cabinRow 2 "GLOBETROTTER") = true ∧
    cabinCond { cabin := some "sleeper" } (cabinRow 3 "DAY CAB") = false ∧
    (cabinCond { cabin := some "HIGH" } (cabinRow 4 "HIGHLINE") = true ↔
      litSubstr (upperStr "HIGH")
        (upperStr ((cabinRow 4 "HIGHLINE").cabin.getD "")) = true) := by
  refine ⟨?_, ?_, ?_⟩
  · exact ((cabin_filter_modes { cabin := some "sleeper" }
      (cabinRow 2 "GLOBETROTTER") "sleeper" rfl (by decide)).1
      (by decide)).mpr ⟨"GLOBETROTTER", by decide, by decide⟩
  · have h := (cabin_filter_modes { cabin := some "sleeper" }
      (cabinRow 3 "DAY CAB") "sleeper" rfl (by decide)).1 (by decide)
    have hno : ¬ ∃ k ∈ sleeper_keywords,
        litSubstr k (upperStr ((cabinRow 3 "DAY CAB").cabin.getD "")) =
          true := by decide
    cases hcc : cabinCond { cabin := some "sleeper" } (cabinRow 3 "DAY CAB")
    · rfl
    · exact absurd (h.mp hcc) hno
  · exact (cabin_filter_modes { cabin := some "HIGH" }
      (cabinRow 4 "HIGHLINE") "HIGH" rfl (by decide)).2
      (by decide) (by decide)

/-- C5 counterexample: the keyword `"."` is a regex metacharacter, so a
record whose cabin is `"X"` matches the cabin filter `"."` and is
returned, although `"."` is not a literal substring of `"X"` — pandas
`str.contains` interprets the keyword as a regular expression, not as a
literal substring. -/
theorem cabin_literal_claim_false :
    _apply_filters [cabinRow 1 "X"] cabinDotFilters = [cabinRow 1 "X"] ∧
    litSubstr "." (upperStr ((cabinRow 1 "X").cabin.getD "")) = false := by
  exact ⟨by decide, by decide⟩

end BasWorld
